import Mathlib

/-!
Verification of the PostHog daily-digest pipeline (`agents/posthog-digest`):
a shallow embedding in Lean 4 of the metric formatting, response parsing,
retry policy, message splitting, project discovery and per-project error
collection found in `formatters.py`, `posthog_client.py`, `discord_client.py`
and `main.py`, together with theorems settling the specification's claims.

Modelling conventions:
* Python `int` is `ℤ`; Python `str` is Lean `String` (or `List Char` where
  character-level reasoning is needed — Python slices strings by code point,
  which matches both representations).
* The float percentage in `format_change` is modelled exactly: a binary64
  value is an `F64` (mantissa, binary exponent, sign-of-zero flag), int/int
  true division and the `* 100` product are rounded to 53 significant bits
  with ties to even as IEEE 754 prescribes (`roundMantissa`), and
  `f"{pct:.0f}"` renders the float rounded half-to-even, printing `"-0"`
  when a negative value rounds to zero (`fmtDotZero`).  Exponents are
  unbounded in the model, so theorems about `format_change` carry
  `f64InRange` hypotheses restricting them to binary64's normal range,
  outside which CPython raises `OverflowError` or produces subnormals.
* Fallible Python code is modelled in `Except`, with an inductive `PyErr`
  mirroring the exception classes (`KeyError`, `IndexError`, `TypeError`,
  `AttributeError`, `ValueError`) that the repository's `try/except` blocks
  distinguish.
* JSON numbers are modelled as integers (`ℤ`): every numeric value the
  pipeline consumes is an event count.
-/

/-- Whitespace characters recognised by CPython's `str.rstrip` / `str.strip`
and `int(...)` stripping, restricted to ASCII (the only whitespace the
pipeline's data can contain). -/
def pyIsSpace (c : Char) : Bool :=
  c == ' ' || c == '\t' || c == '\n' || c == '\r' || c == '\x0b' || c == '\x0c'

/-- Digit-list to value: `['1','2','0'] ↦ 120`, `none` when empty or a
non-digit appears (CPython `int("...")` rejects such strings). -/
def digitsVal (ds : List Char) : Option ℕ :=
  if ds.isEmpty then none
  else if ds.all (fun c => c.isDigit) then
    some (ds.foldl (fun acc c => acc * 10 + (c.toNat - '0'.toNat)) 0)
  else none

/-- CPython `int(s)` for a string argument: surrounding whitespace stripped,
optional single sign, then decimal digits; anything else raises `ValueError`
(modelled as `none`). -/
def strToInt (s : String) : Option ℤ :=
  let core := ((s.toList.dropWhile pyIsSpace).reverse.dropWhile pyIsSpace).reverse
  match core with
  | '+' :: ds => (digitsVal ds).map (fun n => (n : ℤ))
  | '-' :: ds => (digitsVal ds).map (fun n => -(n : ℤ))
  | ds => (digitsVal ds).map (fun n => (n : ℤ))

/-- Insert a `','` after every group of three digits, walking a
least-significant-first digit list (helper for `format_number`). -/
def commaGroupRev : List Char → List Char
  | [] => []
  | [a] => [a]
  | [a, b] => [a, b]
  | [a, b, c] => [a, b, c]
  | a :: b :: c :: d :: rest => a :: b :: c :: ',' :: commaGroupRev (d :: rest)

/-- `formatters.format_number`: CPython `f"{n:,}"`, the decimal rendering of
`n` with thousands separators. -/
def format_number (n : ℤ) : String :=
  let digits := Nat.toDigits 10 n.natAbs
  (if n < 0 then "-" else "") ++ String.mk (commaGroupRev digits.reverse).reverse

/-- Number of binary digits of `n` (`0` for `0`). -/
def bitlen (n : ℕ) : ℕ := if n = 0 then 0 else (Nat.toDigits 2 n).length

/-- Round the fraction `a / b` (callers pass `b > 0`) to the nearest integer,
ties to even — the rounding CPython applies both when converting a rational
to the nearest binary64 and when `f"{x:.0f}"` renders a float. -/
def roundHalfEvenFrac (a b : ℤ) : ℤ :=
  let f := Int.fdiv a b
  let r := a - f * b
  if 2 * r < b then f
  else if b < 2 * r then f + 1
  else if f % 2 = 0 then f else f + 1

/-- Round the positive rational `n / d` to 53 significant bits (round to
nearest, ties to even): returns `(m, e)` with `2^52 ≤ m < 2^53` and
`m * 2^e` the binary64-rounded value of `n / d`.  The binade exponent `E`
(with `n / d ∈ [2^E, 2^(E+1))`) is found from the operands' bit lengths and
one exact comparison; the exponent is unbounded — callers restrict to the
normal range via `f64InRange`. -/
def roundMantissa (n d : ℕ) : ℕ × ℤ :=
  let g : ℤ := (bitlen n : ℤ) - (bitlen d : ℤ)
  let geG : Bool :=
    if 0 ≤ g then decide (d * 2 ^ g.toNat ≤ n) else decide (d ≤ n * 2 ^ (-g).toNat)
  let E : ℤ := if geG then g else g - 1
  let shift : ℤ := 52 - E
  let num : ℤ := if 0 ≤ shift then (n : ℤ) * 2 ^ shift.toNat else (n : ℤ)
  let den : ℤ := if 0 ≤ shift then (d : ℤ) else (d : ℤ) * 2 ^ (-shift).toNat
  let m := (roundHalfEvenFrac num den).toNat
  if m = 2 ^ 53 then (2 ^ 52, E - 51) else (m, E - 52)

/-- A binary64 value with unbounded exponent: the value is `m * 2^e`; `m = 0`
together with the `neg` flag encodes IEEE 754's signed zeros. -/
structure F64 where
  m : ℤ
  e : ℤ
  neg : Bool
  deriving DecidableEq, Repr

/-- CPython `c / p` on ints (true division): the exact quotient correctly
rounded to binary64, with `0 / p` giving `-0.0` for negative `p` (IEEE sign
rule).  `p = 0` never reaches this model (the source guards `previous == 0`). -/
def divF (c p : ℤ) : F64 :=
  if c = 0 then { m := 0, e := 0, neg := p < 0 }
  else
    let me := roundMantissa c.natAbs p.natAbs
    if (0 < c ∧ 0 < p) ∨ (c < 0 ∧ p < 0) then { m := (me.1 : ℤ), e := me.2, neg := false }
    else { m := -(me.1 : ℤ), e := me.2, neg := true }

/-- CPython `x * 100` on a float: the exact product (`100` is itself exact)
re-rounded to 53 bits; signed zeros are preserved. -/
def mul100F (x : F64) : F64 :=
  if x.m = 0 then x
  else
    let me := roundMantissa (x.m.natAbs * 100) 1
    if x.m < 0 then { m := -(me.1 : ℤ), e := x.e + me.2, neg := true }
    else { m := (me.1 : ℤ), e := x.e + me.2, neg := false }

/-- CPython `abs(pct) < 1`: an exact comparison of the float magnitude
`|m| * 2^e` against `1` (`abs(-0.0) = 0.0 < 1` holds). -/
def f64AbsLtOne (x : F64) : Bool :=
  if x.m = 0 then true
  else if 0 ≤ x.e then false
  else x.m.natAbs < 2 ^ (-x.e).toNat

/-- The integer value `f"{x:.0f}"` prints: the exact double value rounded
half-to-even. -/
def f64Round (x : F64) : ℤ :=
  if 0 ≤ x.e then x.m * 2 ^ x.e.toNat
  else roundHalfEvenFrac x.m (2 ^ (-x.e).toNat)

/-- The float's sign bit: a negative value, or a negative zero. -/
def f64IsNeg (x : F64) : Bool := x.m < 0 || (x.m == 0 && x.neg)

/-- CPython `f"{x:.0f}"`: the half-to-even rounded value in decimal, rendered
`"-0"` when a float with the sign bit set (a negative value in `(-1/2, 0]`,
`-0.0` included, or a `-1/2` tie) rounds to zero. -/
def fmtDotZero (x : F64) : String :=
  let r := f64Round x
  if r = 0 ∧ f64IsNeg x then "-0" else toString r

/-- The value is zero or lies in binary64's normal finite range
(`2^-1022 ≤ |v| < 2^1024`).  Outside it CPython's int/int division raises
`OverflowError` or underflows into subnormals, neither of which the model
covers, so the `format_change` theorems assume this of both intermediate
floats. -/
def f64InRange (x : F64) : Bool :=
  x.m == 0 || ((-1074 : ℤ) ≤ x.e && x.e ≤ 971)

/-- `formatters.format_change`: a metric with week-over-week change
indicator.  `previous = none` models Python `None`; the percentage
`(change / previous) * 100` is computed in binary64 (`divF`, `mul100F`) and
rendered with `f"{pct:.0f}"` (`fmtDotZero`). -/
def format_change (current : ℤ) (previous : Option ℤ) : String :=
  match previous with
  | none => format_number current
  | some p =>
    if p = 0 then format_number current
    else
      let change : ℤ := current - p
      let pct : F64 := mul100F (divF change p)
      let arrow : String := if f64AbsLtOne pct then "↔" else if 0 < change then "↑" else "↓"
      let sign : String := if f64AbsLtOne pct then "" else if 0 < change then "+" else ""
      format_number current ++ " " ++ arrow ++ " " ++ sign ++ fmtDotZero pct ++ "%"

/-- The rendering the claim as stated prescribes: plain value when previous
is absent or zero; otherwise the no-change marker with *no sign* when
`|pct| < 1`, an up arrow with `+` when `current > previous`, a down arrow
with no `+` when `current < previous`, followed by pct *rounded to the
nearest integer* — so a percentage that rounds to zero prints `"0"`, never
`"-0"`.  The percentage value is the binary64 value the program computes;
under the stricter exact-rational reading of the claim's
`pct = (current - previous) / previous * 100` the rendering at the
counterexample input `(999, 1000)` is the same string `"0%"`, so the
counterexample refutes the claim under either reading. -/
def specFormatChangeStated (current : ℤ) (previous : Option ℤ) : String :=
  match previous with
  | none => format_number current
  | some p =>
    if p = 0 then format_number current
    else
      let pct : F64 := mul100F (divF (current - p) p)
      let pctStr : String := toString (f64Round pct) ++ "%"
      if f64AbsLtOne pct then
        format_number current ++ " " ++ "↔" ++ " " ++ pctStr
      else if p < current then
        format_number current ++ " " ++ "↑" ++ " " ++ ("+" ++ pctStr)
      else
        format_number current ++ " " ++ "↓" ++ " " ++ pctStr

/-- The amended rendering: as the stated one, except the percentage is
printed exactly as CPython's `f"{pct:.0f}"` prints the float — keeping the
minus sign of a negative percentage that rounds to zero (`"-0"`), also in
the no-change branch. -/
def specFormatChangeAmended (current : ℤ) (previous : Option ℤ) : String :=
  match previous with
  | none => format_number current
  | some p =>
    if p = 0 then format_number current
    else
      let pct : F64 := mul100F (divF (current - p) p)
      let pctStr : String := fmtDotZero pct ++ "%"
      if f64AbsLtOne pct then
        format_number current ++ " " ++ "↔" ++ " " ++ pctStr
      else if p < current then
        format_number current ++ " " ++ "↑" ++ " " ++ ("+" ++ pctStr)
      else
        format_number current ++ " " ++ "↓" ++ " " ++ pctStr

/-- The Python exception classes distinguished by the repository's
`try/except` blocks. -/
inductive PyErr
  | keyError
  | indexError
  | typeError
  | attributeError
  | valueError
  deriving DecidableEq, Repr

/-- A parsed JSON value as `aiohttp`'s `response.json()` produces it (numbers
restricted to integers: every number the pipeline consumes is a count). -/
inductive Json
  | null
  | bool (b : Bool)
  | num (z : ℤ)
  | str (s : String)
  | arr (elems : List Json)
  | obj (fields : List (String × Json))

/-- Python `result.get(key, dflt)`: attribute lookup on anything that is not a
dict raises `AttributeError`; JSON-parsed dicts have unique string keys, so
first-match association-list lookup models them. -/
def dictGet (v : Json) (key : String) (dflt : Json) : Except PyErr Json :=
  match v with
  | .obj kvs => .ok ((kvs.lookup key).getD dflt)
  | _ => .error .attributeError

/-- Python `v[0]`: first element of a list, first character of a string
(`IndexError` when empty), `KeyError` on a string-keyed dict, `TypeError` on
anything not subscriptable. -/
def pySubscriptZero (v : Json) : Except PyErr Json :=
  match v with
  | .arr [] => .error .indexError
  | .arr (x :: _) => .ok x
  | .obj _ => .error .keyError
  | .str s =>
    match s.toList with
    | [] => .error .indexError
    | c :: _ => .ok (.str (String.mk [c]))
  | _ => .error .typeError

/-- Python `v[-1]`: last element / character, same failure modes as `v[0]`. -/
def pySubscriptLast (v : Json) : Except PyErr Json :=
  match v with
  | .arr es =>
    match es.getLast? with
    | none => .error .indexError
    | some x => .ok x
  | .obj _ => .error .keyError
  | .str s =>
    match s.toList.getLast? with
    | none => .error .indexError
    | some c => .ok (.str (String.mk [c]))
  | _ => .error .typeError

/-- Python truthiness of a JSON value (`if data:`). -/
def truthy : Json → Bool
  | .null => false
  | .bool b => b
  | .num z => z != 0
  | .str s => !s.isEmpty
  | .arr es => !es.isEmpty
  | .obj kvs => !kvs.isEmpty

/-- Python `int(v)` on a JSON value: identity on ints, `0/1` on bools,
decimal parse on strings (`ValueError` on failure), `TypeError` otherwise. -/
def pyInt (v : Json) : Except PyErr ℤ :=
  match v with
  | .num z => .ok z
  | .bool b => .ok (if b then 1 else 0)
  | .str s =>
    match strToInt s with
    | some z => .ok z
    | none => .error .valueError
  | _ => .error .typeError

/-- `PostHogClient._extract_trend_value`: evaluate
`result.get("results", [\x7b\x7d])[0].get("data", [])`, return the last data
point as `int` when the data is truthy and `0` otherwise, converting
`KeyError`/`IndexError`/`TypeError` (and only those) to `0`. -/
def extract_trend_value (result : Json) : Except PyErr ℤ :=
  let body : Except PyErr ℤ := do
    let resultsV ← dictGet result "results" (.arr [.obj []])
    let first ← pySubscriptZero resultsV
    let data ← dictGet first "data" (.arr [])
    if truthy data then
      let last ← pySubscriptLast data
      pyInt last
    else
      pure 0
  match body with
  | .error .keyError => .ok 0
  | .error .indexError => .ok 0
  | .error .typeError => .ok 0
  | other => other

/-- A scalar cell of a HogQL result row (`page`, `views`, event name, count —
the shapes the pageview and discovery queries return). -/
inductive Cell
  | null
  | bool (b : Bool)
  | num (z : ℤ)
  | str (s : String)
  deriving DecidableEq, Repr

/-- Python `str(...)` on a scalar cell. -/
def pyStrCell : Cell → String
  | .null => "None"
  | .bool true => "True"
  | .bool false => "False"
  | .num z => toString z
  | .str s => s

/-- Python truthiness of a scalar cell (`if r[0]`, `if project_id`). -/
def cellTruthy : Cell → Bool
  | .null => false
  | .bool b => b
  | .num z => z != 0
  | .str s => !s.isEmpty

/-- Python `int(...)` on a scalar cell. -/
def pyIntCell (v : Cell) : Except PyErr ℤ :=
  match v with
  | .num z => .ok z
  | .bool b => .ok (if b then 1 else 0)
  | .str s =>
    match strToInt s with
    | some z => .ok z
    | none => .error .valueError
  | .null => .error .typeError

/-- Python string slicing `s[:n]` (by code point). -/
def strTake (n : ℕ) (s : String) : String := String.mk (s.toList.take n)

/-- The comprehension
`[(str(r[0])[:50], int(r[1])) for r in results[:5] if r[0]]` over the rows it
is given (the caller passes `results[:5]`): `r[0]`/`r[1]` raise `IndexError`
on short rows, the truthiness filter drops falsy URLs. -/
def topPagesGo : List (List Cell) → Except PyErr (List (String × ℤ))
  | [] => .ok []
  | r :: rest => do
    let c0 ← match r.head? with
      | some c => Except.ok c
      | none => Except.error PyErr.indexError
    if cellTruthy c0 then
      let c1 ← match r[1]? with
        | some c => Except.ok c
        | none => Except.error PyErr.indexError
      let v ← pyIntCell c1
      let restPages ← topPagesGo rest
      pure ((strTake 50 (pyStrCell c0), v) :: restPages)
    else
      topPagesGo rest

/-- `sum(int(r[1]) for r in results if len(r) > 1)`: rows of length ≤ 1 are
skipped by the generator's filter, every other row contributes `int(r[1])`. -/
def totalViewsGo : List (List Cell) → Except PyErr ℤ
  | [] => .ok 0
  | r :: rest =>
    match r[1]? with
    | none => totalViewsGo rest
    | some c1 => do
      let v ← pyIntCell c1
      let s ← totalViewsGo rest
      pure (v + s)

/-- The response-parsing tail of `PostHogClient._fetch_pageviews`, applied to
`result.get("results", [])`: first the `top_pages` comprehension over
`results[:5]`, then the total over all rows, returned as
`(total_pageviews, top_pages)`. -/
def fetchPageviewsParse (rows : List (List Cell)) : Except PyErr (ℤ × List (String × ℤ)) := do
  let tp ← topPagesGo (rows.take 5)
  let total ← totalViewsGo rows
  pure (total, tp)

/-- `posthog_client.PROJECT_COLORS`: default colors for auto-discovered
projects. -/
def PROJECT_COLORS : List ℤ :=
  [3447003, 10181046, 15844367, 3066993, 15105570, 3426654, 16776960, 9807270]

/-- `config.PostHogProject`.  A discovered project's `name` comes straight
from the API payload, so it is kept as the raw scalar cell. -/
structure PostHogProject where
  name : Cell
  project_id : String
  color : ℤ
  custom_events : List String
  deriving DecidableEq, Repr

/-- `str(project.get("id", ""))` from `discover_projects`. -/
def entryPid (project : List (String × Cell)) : String :=
  pyStrCell ((project.lookup "id").getD (.str ""))

/-- `project.get("name", f"Project (project_id)")` from `discover_projects`. -/
def entryName (project : List (String × Cell)) (pid : String) : Cell :=
  (project.lookup "name").getD (.str ("Project " ++ pid))

/-- The `for i, project in enumerate(results)` loop of
`PostHogClient.discover_projects`, with the running `enumerate` index made
explicit: entries whose stringified `id` is empty are skipped, kept entries
get `PROJECT_COLORS[i % len(PROJECT_COLORS)]`. -/
def discoverGo (i : ℕ) : List (List (String × Cell)) → List PostHogProject
  | [] => []
  | project :: rest =>
    let project_id := entryPid project
    if !project_id.isEmpty then
      { name := entryName project project_id
        project_id := project_id
        color := PROJECT_COLORS.getD (i % PROJECT_COLORS.length) 0
        custom_events := [] } :: discoverGo (i + 1) rest
    else
      discoverGo (i + 1) rest

/-- `PostHogClient.discover_projects`, from the extracted `results` list on. -/
def discoverProjects (results : List (List (String × Cell))) : List PostHogProject :=
  discoverGo 0 results

/-- Spec-side projection: the URL field of a pageview row (first column,
empty when absent or not a string). -/
def rowUrl (r : List Cell) : String :=
  match r.head? with
  | some (.str s) => s
  | _ => ""

/-- Spec-side projection: the views column of a pageview row (second column,
`0` when absent or not a number). -/
def rowViews (r : List Cell) : ℤ :=
  match (r[1]? : Option Cell) with
  | some (.num z) => z
  | _ => 0

/-- A pageview row as the HogQL query returns it: a string URL cell, an
integer views cell, then anything. -/
def WellShapedRow (r : List Cell) : Prop :=
  ∃ u v rest, r = .str u :: .num v :: rest

/-- The response-status handling of `PostHogClient._query`: `429` raises the
distinguished rate-limit `PostHogAPIError("Rate limited")`; any other status
`>= 400` raises `PostHogAPIError` with the status code and the response body
truncated to 200 characters; otherwise the parsed JSON body is returned.
The error value is the exception's message string (as a character list). -/
def handleQueryResponse (status : ℕ) (bodyText : List Char) (body : Json) :
    Except (List Char) Json :=
  if status = 429 then .error ("Rate limited".toList)
  else if 400 ≤ status then
    .error ("API error ".toList ++ (toString status).toList ++ ": ".toList ++ bodyText.take 200)
  else .ok body

/-- The `time_filter` computed by `PostHogClient._fetch_pageviews`: a trailing
1-day filter when `date_to == "now"`, and otherwise the hardcoded 8-day/7-day
window — the `date_from`/`date_to` values are not interpolated. -/
def pageviewTimeFilter (dateFrom dateTo : String) : String :=
  if dateTo = "now" then "timestamp >= now() - INTERVAL 1 DAY"
  else "timestamp >= now() - INTERVAL 8 DAY AND timestamp < now() - INTERVAL 7 DAY"

/-- The HogQL text of the pageview query built by `_fetch_pageviews` (the
f-string with `time_filter` interpolated; `\x27` is the ASCII quote). -/
def pageviewQuerySql (dateFrom dateTo : String) : String :=
  "\n                SELECT\n                    properties.$current_url as page,\n                    count() as views\n                FROM events\n                WHERE event = \x27$pageview\x27\n                  AND "
    ++ pageviewTimeFilter dateFrom dateTo
    ++ "\n                GROUP BY page\n                ORDER BY views DESC\n                LIMIT 10\n            "

/-- `config.ProjectMetrics` (dicts kept as ordered association lists). -/
structure ProjectMetrics where
  dau : ℤ
  wau : ℤ
  mau : ℤ
  pageviews_24h : ℤ
  top_pages : List (String × ℤ)
  custom_events : List (String × ℤ)
  prev_dau : Option ℤ
  prev_wau : Option ℤ
  prev_mau : Option ℤ
  prev_pageviews_24h : Option ℤ
  prev_custom_events : List (String × ℤ)
  deriving DecidableEq, Repr

/-- The per-project collection loop of `main.main`: each project's
`fetch_project_metrics` either succeeds and is appended to `results`, or
raises (`PostHogAPIError` or any other exception — both handlers append
`(project, str(e))`) and is appended to `errors`; the loop always continues
with the remaining projects.  `fetch` abstracts the awaited call's outcome
per project; `.error` carries `str(e)`. -/
def collectMetrics (projects : List PostHogProject)
    (fetch : PostHogProject → Except String ProjectMetrics) :
    List (PostHogProject × ProjectMetrics) × List (PostHogProject × String) :=
  match projects with
  | [] => ([], [])
  | p :: rest =>
    let tailAcc := collectMetrics rest fetch
    match fetch p with
    | .ok m => ((p, m) :: tailAcc.1, tailAcc.2)
    | .error e => (tailAcc.1, (p, e) :: tailAcc.2)

/-- One `_query` call attempt's outcome: success, a network/connection-level
`aiohttp.ClientError`, or an HTTP-level `PostHogAPIError` raised from the
response status check (each error carrying its message). -/
inductive QErr
  | net (msg : String)
  | api (msg : String)
  deriving DecidableEq, Repr

/-- What the decorated `_query` ultimately does: return a value, re-raise an
exception the retry predicate rejects, or — when the stop condition ends the
retrying — raise a `tenacity.RetryError` wrapping the last attempt's
exception (the decorator leaves `reraise` at its default `False`). -/
inductive RunOutcome
  | ok (v : Json)
  | raised (e : QErr)
  | retryExhausted (e : QErr)

/-- `tenacity.wait_exponential(multiplier=1, min=2, max=10)`: the wait before
the retry that follows failed attempt number `n` is
`clamp(multiplier * 2^n, min, max)` seconds. -/
def backoffWait (n : ℕ) : ℕ := max 2 (min (1 * 2 ^ n) 10)

/-- The `@retry(stop=stop_after_attempt(3), wait=wait_exponential(multiplier=1,
min=2, max=10), retry=retry_if_exception_type(aiohttp.ClientError))` decorator
around `PostHogClient._query`, unrolled for its three attempts.  `attempt k`
is the outcome of the `k`-th call of the wrapped coroutine (1-based).  After a
failed attempt tenacity re-raises immediately if the exception is not an
`aiohttp.ClientError`; otherwise it checks the stop condition: if fewer than
3 attempts have run it sleeps `backoffWait attempt_number` and retries, and
after the 3rd failure it raises `RetryError` wrapping the last exception.
Returns (outcome, waits performed, attempts made). -/
def tenacityRun (attempt : ℕ → Except QErr Json) : RunOutcome × List ℕ × ℕ :=
  match attempt 1 with
  | .ok v => (.ok v, [], 1)
  | .error (.api e) => (.raised (.api e), [], 1)
  | .error (.net _) =>
    match attempt 2 with
    | .ok v => (.ok v, [backoffWait 1], 2)
    | .error (.api e) => (.raised (.api e), [backoffWait 1], 2)
    | .error (.net _) =>
      match attempt 3 with
      | .ok v => (.ok v, [backoffWait 1, backoffWait 2], 3)
      | .error (.api e) => (.raised (.api e), [backoffWait 1, backoffWait 2], 3)
      | .error (.net e3) => (.retryExhausted (.net e3), [backoffWait 1, backoffWait 2], 3)

/-- Every attempt fails with the same connection error (an unreachable API). -/
def allNetAttempts : ℕ → Except QErr Json :=
  fun _ => .error (.net "connection reset")

/-- First attempt hits a connection error, the second succeeds. -/
def netThenOkAttempts : ℕ → Except QErr Json :=
  fun n => if n = 1 then .error (.net "timeout") else .ok (.num 7)

/-- CPython `str.rstrip()`: drop trailing whitespace. -/
def rstrip (s : List Char) : List Char :=
  ((s.reverse).dropWhile pyIsSpace).reverse

/-- CPython `message.split("\n")`: split at every newline; no newline merging,
`""` turns into `[""]`. -/
def splitOnNl : List Char → List (List Char)
  | [] => [[]]
  | c :: rest =>
    if c = '\n' then [] :: splitOnNl rest
    else
      match splitOnNl rest with
      | [] => [[c]]
      | l :: ls => (c :: l) :: ls

/-- The loop of `DiscordClient._split_message`: `lines` still to process,
`cc` the accumulated `current_chunk`, `chunks` the flushed chunks.  A line
that would push `len(current_chunk) + len(line) + 1` past `max_length`
flushes the (rstripped) current chunk and starts a fresh one; otherwise the
line and a newline are appended.  The trailing chunk is flushed at the end
when non-empty. -/
def splitLoop (maxLength : ℕ) : List (List Char) → List Char → List (List Char) → List (List Char)
  | [], cc, chunks =>
    if cc.isEmpty then chunks else chunks ++ [rstrip cc]
  | line :: rest, cc, chunks =>
    if maxLength < cc.length + line.length + 1 then
      splitLoop maxLength rest (line ++ ['\n']) (if cc.isEmpty then chunks else chunks ++ [rstrip cc])
    else
      splitLoop maxLength rest (cc ++ line ++ ['\n']) chunks

/-- `DiscordClient._split_message`: a message short enough is returned whole;
otherwise it is split on line boundaries by `splitLoop`. -/
def splitMessage (message : List Char) (maxLength : ℕ) : List (List Char) :=
  if message.length ≤ maxLength then [message]
  else splitLoop maxLength (splitOnNl message) [] []

/-- `current_chunk` as a function of the lines it accumulated: each line is
appended followed by `"\n"`. -/
def glue : List (List Char) → List Char
  | [] => []
  | l :: rest => l ++ '\n' :: glue rest

/-- Lines joined with newlines (the inverse of `splitOnNl`): what a chunk
reproduces of the original message once its trimmed trailing whitespace is
restored. -/
def joinNl : List (List Char) → List Char
  | [] => []
  | [l] => l
  | l :: rest => l ++ '\n' :: joinNl rest

/-- A metrics snapshot used by the concrete collection runs below. -/
def wmetrics : ProjectMetrics :=
  { dau := 1, wau := 2, mau := 3, pageviews_24h := 4, top_pages := [], custom_events := [],
    prev_dau := none, prev_wau := none, prev_mau := none, prev_pageviews_24h := none,
    prev_custom_events := [] }

/-- Three concrete projects for the collection runs below. -/
def wproj1 : PostHogProject := { name := .str "A", project_id := "1", color := 3447003, custom_events := [] }

/-- Second concrete project. -/
def wproj2 : PostHogProject := { name := .str "B", project_id := "2", color := 10181046, custom_events := [] }

/-- Third concrete project. -/
def wproj3 : PostHogProject := { name := .str "C", project_id := "3", color := 15844367, custom_events := [] }

/-- A fetch outcome function that fails for project id "2" only. -/
def wfetch : PostHogProject → Except String ProjectMetrics :=
  fun p => if p.project_id = "2" then .error "API error 500: down" else .ok wmetrics

theorem strAppend_assoc (a b c : String) : a ++ b ++ c = a ++ (b ++ c) := by
  cases a with
  | mk da =>
    cases b with
    | mk db =>
      cases c with
      | mk dc =>
        show String.mk (da ++ db ++ dc) = String.mk (da ++ (db ++ dc))
        rw [List.append_assoc]

theorem strAppend_empty (a : String) : a ++ "" = a := by
  cases a with
  | mk da =>
    show String.mk (da ++ []) = String.mk da
    rw [List.append_nil]

example : format_number 1234567 = "1,234,567" := by decide

set_option maxRecDepth 10000 in
/-- C1 counterexample.  The claim says the no-change branch renders the
marker with no sign, followed by the percentage rounded to the nearest
integer — but CPython's `f"{pct:.0f}"` prints `"-0"` for a negative
percentage that rounds to zero, so `format_change(999, 1000)` (float
`pct = -0.1`) renders `"999 ↔ -0%"` where the claim's wording prescribes
`"999 ↔ 0%"`. -/
theorem C1_format_change_counterexample :
    format_change 999 (some 1000) = "999 ↔ -0%" ∧
    specFormatChangeStated 999 (some 1000) = "999 ↔ 0%" ∧
    ("999 ↔ -0%" : String) ≠ "999 ↔ 0%" := by
  refine ⟨by decide, by decide, by decide⟩

set_option maxRecDepth 10000 in
/-- C1 (amended).  For `previous` absent or `0`, the thousands-separated
`current` is rendered alone, for every integer input.  Otherwise — with the
percentage computed in binary64 exactly as the program computes it
(`(current - previous) / previous` correctly rounded, then `* 100`, rounded
again), and for inputs whose two intermediate floats lie in binary64's
normal range (the hypotheses scope the statement to where the model speaks
for CPython; beyond it CPython raises `OverflowError` or underflows) — the
rendering is: the no-change marker `↔` when `|pct| < 1`, an up arrow with
`+` when `current > previous`, a down arrow with no `+` when
`current < previous`, followed by the percentage exactly as `f"{pct:.0f}"`
prints it, which keeps the minus sign of a negative percentage rounding to
zero, so a small negative change renders `"↔ -0%"`.  The claim's examples
render as stated; the boundary `|pct| = 1` is not no-change
(`101/100 → "101 ↑ +1%"`); and the float boundary follows the program, not
exact arithmetic: for `current = 10^20 + 10^18 - 1`, `previous = 10^20` the
exact percentage is below `1` but the float is exactly `1.0`, and the
program renders an up arrow. -/
theorem C1_format_change_amended :
    (∀ (current p : ℤ), p ≠ 0 →
      f64InRange (divF (current - p) p) = true →
      f64InRange (mul100F (divF (current - p) p)) = true →
      format_change current (some p) = specFormatChangeAmended current (some p)) ∧
    (∀ current : ℤ, format_change current none = specFormatChangeAmended current none) ∧
    (∀ current : ℤ, format_change current (some 0) = specFormatChangeAmended current (some 0)) ∧
    format_change 50 none = "50" ∧
    format_change 120 (some 100) = "120 ↑ +20%" ∧
    format_change 100 (some 120) = "100 ↓ -17%" ∧
    format_change 101 (some 100) = "101 ↑ +1%" ∧
    format_change 999 (some 1000) = "999 ↔ -0%" ∧
    format_change 100999999999999999999 (some 100000000000000000000)
      = "100,999,999,999,999,999,999 ↑ +1%" := by
  refine ⟨?_, ?_, ?_, by decide, by decide, by decide, by decide, by decide, by decide⟩
  · intro current p hp hr1 hr2
    simp only [format_change, specFormatChangeAmended, if_neg hp]
    by_cases h1 : f64AbsLtOne (mul100F (divF (current - p) p)) = true
    · simp only [if_pos h1, strAppend_empty, strAppend_assoc]
    · by_cases h2 : (0 : ℤ) < current - p
      · have h2' : p < current := by omega
        simp only [if_neg h1, if_pos h2, if_pos h2', strAppend_assoc]
      · have h2' : ¬ p < current := by omega
        simp only [if_neg h1, if_neg h2, if_neg h2', strAppend_empty, strAppend_assoc]
  · intro current
    rfl
  · intro current
    simp [format_change, specFormatChangeAmended]

/-- C1 witness: the amended equivalence applied at `(120, some 100)`, whose
intermediate floats (`0.2` and `20.000000000000004`) lie in binary64's
normal range. -/
theorem C1_format_change_witness :
    format_change 120 (some 100) = specFormatChangeAmended 120 (some 100) :=
  C1_format_change_amended.1 120 100 (by decide) (by decide) (by decide)

/-- C4 counterexample.  The claim says the trend-extraction function never
raises for any JSON input, but a `results` list whose first entry is not a
dict makes `.get("data", [])` raise `AttributeError`, which is not in the
caught `(KeyError, IndexError, TypeError)` tuple; likewise a last data point
that is a non-numeric string makes `int(...)` raise `ValueError`.  (`.error`
models the exception propagating out of `_extract_trend_value`.) -/
theorem C4_extract_trend_value_counterexample :
    extract_trend_value (.obj [("results", .arr [.num 5])]) = .error .attributeError ∧
    extract_trend_value (.obj [("results", .arr [.obj [("data", .arr [.str "x"])]])])
      = .error .valueError := by
  constructor
  · rfl
  · rfl

/-- C4 (amended).  The trend extraction returns the last element of the
`data` sequence of the first `results` entry when that shape is present, and
returns `0` when the data is absent or malformed in a way that raises
`KeyError`, `IndexError` or `TypeError` (missing keys, empty lists,
non-subscriptable values); but it is not total: a non-dict input, or a first
`results` entry that is not a dict, raises `AttributeError`, and a last data
point that is a non-numeric string raises `ValueError`. -/
theorem C4_extract_trend_value_amended :
    (∀ (kvs d : List (String × Json)) (rest pts : List Json) (z : ℤ),
      kvs.lookup "results" = some (.arr (.obj d :: rest)) →
      d.lookup "data" = some (.arr pts) →
      pts.getLast? = some (.num z) →
      extract_trend_value (.obj kvs) = .ok z) ∧
    (∀ kvs, kvs.lookup "results" = none → extract_trend_value (.obj kvs) = .ok 0) ∧
    (∀ kvs, kvs.lookup "results" = some (.arr []) → extract_trend_value (.obj kvs) = .ok 0) ∧
    (∀ (kvs d : List (String × Json)) (rest : List Json),
      kvs.lookup "results" = some (.arr (.obj d :: rest)) →
      d.lookup "data" = none → extract_trend_value (.obj kvs) = .ok 0) ∧
    (∀ (kvs d : List (String × Json)) (rest : List Json),
      kvs.lookup "results" = some (.arr (.obj d :: rest)) →
      d.lookup "data" = some (.arr []) → extract_trend_value (.obj kvs) = .ok 0) ∧
    (∀ j : Json, (∀ kvs, j ≠ .obj kvs) → extract_trend_value j = .error .attributeError) := by
  refine ⟨?_, ?_, ?_, ?_, ?_, ?_⟩
  · intro kvs d rest pts z h1 h2 h3
    have hne : pts ≠ [] := by
      intro h
      rw [h] at h3
      simp at h3
    simp [extract_trend_value, dictGet, pySubscriptZero, pySubscriptLast, pyInt, truthy,
      h1, h2, h3, hne, Except.instMonad, Except.bind, Except.pure, Bind.bind, Pure.pure]
  · intro kvs h1
    simp [extract_trend_value, dictGet, pySubscriptZero, pySubscriptLast, truthy,
      h1, Except.instMonad, Except.bind, Except.pure, Bind.bind, Pure.pure]
  · intro kvs h1
    simp [extract_trend_value, dictGet, pySubscriptZero, h1, Except.instMonad, Except.bind,
      Except.pure, Bind.bind, Pure.pure]
  · intro kvs d rest h1 h2
    simp [extract_trend_value, dictGet, pySubscriptZero, truthy, h1, h2, Except.instMonad,
      Except.bind, Except.pure, Bind.bind, Pure.pure]
  · intro kvs d rest h1 h2
    simp [extract_trend_value, dictGet, pySubscriptZero, truthy, h1, h2, Except.instMonad,
      Except.bind, Except.pure, Bind.bind, Pure.pure]
  · intro j hj
    cases j with
    | obj kvs => exact absurd rfl (hj kvs)
    | null => rfl
    | bool b => rfl
    | num z => rfl
    | str s => rfl
    | arr es => rfl

/-- C4 witness: the amended theorem applied to a well-shaped concrete trend
response, whose last data point is extracted. -/
theorem C4_extract_trend_value_witness :
    extract_trend_value
      (.obj [("results", .arr [.obj [("data", .arr [.num 3, .num 7])]])]) = .ok 7 :=
  C4_extract_trend_value_amended.1
    [("results", .arr [.obj [("data", .arr [.num 3, .num 7])]])]
    [("data", .arr [.num 3, .num 7])] [] [.num 3, .num 7] 7 rfl rfl rfl

theorem discoverGo_enumFrom
    (f : ℕ × List (String × Cell) → PostHogProject)
    (hf : ∀ ip, f ip = { name := entryName ip.2 (entryPid ip.2), project_id := entryPid ip.2,
                         color := PROJECT_COLORS.getD (ip.1 % 8) 0, custom_events := [] }) :
    ∀ (results : List (List (String × Cell))) (i : ℕ),
      discoverGo i results =
        ((results.enumFrom i).filter (fun ip => !(entryPid ip.2).isEmpty)).map f := by
  intro results
  induction results with
  | nil => intro i; rfl
  | cons project rest ih =>
    intro i
    have hlen : PROJECT_COLORS.length = 8 := rfl
    cases h : (entryPid project).isEmpty with
    | true =>
      simp [discoverGo, List.enumFrom, List.filter_cons, h, ih]
    | false =>
      simp [discoverGo, List.enumFrom, List.filter_cons, h, ih, hf, hlen]

/-- C10.  Project discovery drops every API entry whose stringified `id`
field is missing or empty, yet assigns each kept project the palette color
indexed by the entry's position in the raw API list modulo 8; consequently a
skipped entry still consumes its palette position, as the concrete run shows:
with a bad entry sandwiched between two good ones, the kept projects receive
palette entries 0 and 2 — entry 1 (10181046) is skipped, so the two colors
are not consecutive palette entries. -/
theorem C10_discover_projects :
    (∀ results, discoverProjects results =
      ((results.enumFrom 0).filter (fun ip => !(entryPid ip.2).isEmpty)).map
        (fun ip => { name := entryName ip.2 (entryPid ip.2), project_id := entryPid ip.2,
                     color := PROJECT_COLORS.getD (ip.1 % 8) 0, custom_events := [] })) ∧
    (discoverProjects [[("id", .str "a")], [("name", .str "NoId")], [("id", .str "b")]]).map
        (fun p => p.color) = [3447003, 15844367] ∧
    PROJECT_COLORS.getD 0 0 = 3447003 ∧ PROJECT_COLORS.getD 1 0 = 10181046 ∧
    PROJECT_COLORS.getD 2 0 = 15844367 ∧ ((10181046 : ℤ) ≠ 15844367) := by
  refine ⟨?_, by decide, by decide, by decide, by decide, by decide⟩
  intro results
  exact discoverGo_enumFrom _ (fun ip => rfl) results 0

theorem topPagesGo_shaped (l : List (List Cell)) (hshape : ∀ r ∈ l, WellShapedRow r) :
    topPagesGo l =
      .ok ((l.filter (fun r => !(rowUrl r).isEmpty)).map
        (fun r => (strTake 50 (rowUrl r), rowViews r))) := by
  induction l with
  | nil => rfl
  | cons r rest ih =>
    obtain ⟨u, v, tail, hr⟩ := hshape r (List.mem_cons_self r rest)
    have ihr := ih (fun q hq => hshape q (List.mem_cons_of_mem r hq))
    subst hr
    cases hu : u.isEmpty with
    | true =>
      simp [topPagesGo, cellTruthy, pyStrCell, pyIntCell, rowUrl, rowViews, hu, ihr,
        List.filter_cons, Except.instMonad, Except.bind, Except.pure, Bind.bind, Pure.pure]
    | false =>
      simp [topPagesGo, cellTruthy, pyStrCell, pyIntCell, rowUrl, rowViews, hu, ihr,
        List.filter_cons, List.get?, Except.instMonad, Except.bind, Except.pure,
        Bind.bind, Pure.pure]

theorem totalViewsGo_shaped (l : List (List Cell)) (hshape : ∀ r ∈ l, WellShapedRow r) :
    totalViewsGo l = .ok ((l.map rowViews).sum) := by
  induction l with
  | nil => rfl
  | cons r rest ih =>
    obtain ⟨u, v, tail, hr⟩ := hshape r (List.mem_cons_self r rest)
    have ihr := ih (fun q hq => hshape q (List.mem_cons_of_mem r hq))
    subst hr
    simp [totalViewsGo, pyIntCell, rowViews, ihr, List.get?, Except.instMonad, Except.bind,
      Except.pure, Bind.bind, Pure.pure]

/-- C7.  For every well-shaped response rows list (string URL column, integer
views column), the pageview parse yields top pages taken from the first five
rows whose URL is non-empty, each URL truncated to 50 characters, while the
total is the sum of the views column over all returned rows — not only the
top five. -/
theorem C7_fetch_pageviews_parse (rows : List (List Cell))
    (hshape : ∀ r ∈ rows, WellShapedRow r) :
    fetchPageviewsParse rows =
      .ok ((rows.map rowViews).sum,
           ((rows.take 5).filter (fun r => !(rowUrl r).isEmpty)).map
             (fun r => (strTake 50 (rowUrl r), rowViews r))) := by
  have h5 : ∀ r ∈ rows.take 5, WellShapedRow r :=
    fun r hr => hshape r (List.take_subset 5 rows hr)
  have htp := topPagesGo_shaped (rows.take 5) h5
  have htot := totalViewsGo_shaped rows hshape
  simp [fetchPageviewsParse, htp, htot, Except.instMonad, Except.bind, Except.pure,
    Bind.bind, Pure.pure]

/-- C7 witness: a concrete response with six rows, one with an empty URL and
one beyond the first five; the total sums all six views columns while the
top pages keep only the first-five rows with non-empty URLs. -/
theorem C7_fetch_pageviews_parse_witness :
    fetchPageviewsParse
      [[.str "/a", .num 10], [.str "", .num 9], [.str "/c", .num 8],
       [.str "/d", .num 7], [.str "/e", .num 6], [.str "/f", .num 5]]
      = .ok (45, [("/a", 10), ("/c", 8), ("/d", 7), ("/e", 6)]) := by
  have h := C7_fetch_pageviews_parse
    [[.str "/a", .num 10], [.str "", .num 9], [.str "/c", .num 8],
     [.str "/d", .num 7], [.str "/e", .num 6], [.str "/f", .num 5]]
    (by
      intro r hr
      simp only [List.mem_cons, List.not_mem_nil, or_false] at hr
      rcases hr with h | h | h | h | h | h
      · exact ⟨"/a", 10, [], h⟩
      · exact ⟨"", 9, [], h⟩
      · exact ⟨"/c", 8, [], h⟩
      · exact ⟨"/d", 7, [], h⟩
      · exact ⟨"/e", 6, [], h⟩
      · exact ⟨"/f", 5, [], h⟩)
  exact h.trans (by rfl)


theorem topPagesGo_length (l : List (List Cell)) :
    ∀ tp, topPagesGo l = .ok tp → tp.length ≤ l.length := by
  induction l with
  | nil =>
    intro tp hok
    cases hok
    simp
  | cons r rest ih =>
    intro tp hok
    cases hh : r.head? with
    | none => simp [topPagesGo, hh, Except.instMonad, Except.bind, Bind.bind] at hok
    | some c0 =>
      cases ht : cellTruthy c0 with
      | false =>
        simp [topPagesGo, hh, ht, Except.instMonad, Except.bind, Bind.bind] at hok
        exact le_trans (ih tp hok) (Nat.le_succ _)
      | true =>
        cases hg : (r[1]? : Option Cell) with
        | none =>
          simp [topPagesGo, hh, ht, hg, Except.instMonad, Except.bind, Bind.bind] at hok
        | some c1 =>
          cases hv : pyIntCell c1 with
          | error e =>
            simp [topPagesGo, hh, ht, hg, hv, Except.instMonad, Except.bind, Bind.bind] at hok
          | ok v =>
            cases hrest : topPagesGo rest with
            | error e =>
              simp [topPagesGo, hh, ht, hg, hv, hrest, Except.instMonad, Except.bind,
                Bind.bind, Pure.pure, Except.pure] at hok
            | ok rp =>
              simp [topPagesGo, hh, ht, hg, hv, hrest, Except.instMonad, Except.bind,
                Bind.bind, Pure.pure, Except.pure] at hok
              subst hok
              simpa using Nat.succ_le_succ (ih rp hrest)

theorem topPagesGo_views_sublist (l : List (List Cell))
    (hnum : ∀ r ∈ l, ∃ z, r[1]? = some (.num z)) :
    ∀ tp, topPagesGo l = .ok tp → List.Sublist (tp.map Prod.snd) (l.map rowViews) := by
  induction l with
  | nil =>
    intro tp hok
    cases hok
    simp
  | cons r rest ih =>
    intro tp hok
    have ihr := ih (fun q hq => hnum q (List.mem_cons_of_mem r hq))
    obtain ⟨z, hz⟩ := hnum r (List.mem_cons_self r rest)
    have hviews : rowViews r = z := by simp [rowViews, hz]
    cases hh : r.head? with
    | none => simp [topPagesGo, hh, Except.instMonad, Except.bind, Bind.bind] at hok
    | some c0 =>
      cases ht : cellTruthy c0 with
      | false =>
        simp [topPagesGo, hh, ht, Except.instMonad, Except.bind, Bind.bind] at hok
        exact (ihr tp hok).trans (List.sublist_cons_self _ _)
      | true =>
        cases hrest : topPagesGo rest with
        | error e =>
          simp [topPagesGo, hh, ht, hz, hrest, pyIntCell, Except.instMonad, Except.bind,
            Bind.bind, Pure.pure, Except.pure] at hok
        | ok rp =>
          simp [topPagesGo, hh, ht, hz, hrest, pyIntCell, Except.instMonad, Except.bind,
            Bind.bind, Pure.pure, Except.pure] at hok
          subst hok
          simpa [hviews] using List.Sublist.cons₂ z (ihr rp hrest)

theorem fetchPageviewsParse_topPages (rows : List (List Cell)) (t : ℤ)
    (tp : List (String × ℤ)) (hok : fetchPageviewsParse rows = .ok (t, tp)) :
    topPagesGo (rows.take 5) = .ok tp := by
  cases h1 : topPagesGo (rows.take 5) with
  | error e =>
    simp [fetchPageviewsParse, h1, Except.instMonad, Except.bind, Bind.bind] at hok
  | ok tp' =>
    cases h2 : totalViewsGo rows with
    | error e =>
      simp [fetchPageviewsParse, h1, h2, Except.instMonad, Except.bind, Bind.bind,
        Pure.pure, Except.pure] at hok
    | ok tot =>
      simp only [fetchPageviewsParse, h1, h2, Except.instMonad, Except.bind, Bind.bind,
        Pure.pure, Except.pure, Except.ok.injEq, Prod.mk.injEq] at hok
      obtain ⟨h3, h4⟩ := hok
      rw [h4]

/-- C6 counterexample.  The claim asserts non-increasing view counts for
*every* API response, but `_fetch_pageviews` never sorts: ordering is
delegated to the query's `ORDER BY views DESC`, so a response whose rows come
back in increasing order yields an increasing `top_pages`. -/
theorem C6_top_pages_counterexample :
    fetchPageviewsParse [[.str "a", .num 1], [.str "b", .num 5]]
      = .ok (6, [("a", 1), ("b", 5)]) ∧
    ¬ List.Pairwise (fun a b => b.2 ≤ a.2) [(("a" : String), (1 : ℤ)), ("b", 5)] := by
  constructor
  · rfl
  · decide

/-- C6 (amended).  Whenever the pageview parse succeeds, `top_pages` has
length at most 5; and provided the response's first five rows carry integer
view counts in non-increasing order — which the query's `ORDER BY views DESC`
requests of the API — `top_pages` is non-increasing in view count.  Ties keep
the original API row order: the extracted view sequence is a sublist, in row
order, of the first five rows' view column (`topPagesGo_views_sublist`), so
the parse never reorders equal-view rows. -/
theorem C6_top_pages_amended (rows : List (List Cell)) (t : ℤ) (tp : List (String × ℤ))
    (hok : fetchPageviewsParse rows = .ok (t, tp)) :
    tp.length ≤ 5 ∧
    ((∀ r ∈ rows.take 5, ∃ z, r[1]? = some (.num z)) →
      List.Pairwise (fun r s => rowViews s ≤ rowViews r) (rows.take 5) →
      List.Pairwise (fun a b => b.2 ≤ a.2) tp) := by
  have htp := fetchPageviewsParse_topPages rows t tp hok
  constructor
  · have hlen := topPagesGo_length (rows.take 5) tp htp
    have h5 : (rows.take 5).length ≤ 5 := by simp [List.length_take]
    omega
  · intro hnum hsorted
    have hs := topPagesGo_views_sublist (rows.take 5) hnum tp htp
    have hp : List.Pairwise (fun a b => b ≤ a) ((rows.take 5).map rowViews) :=
      (List.pairwise_map).2 hsorted
    have hq : List.Pairwise (fun a b => b ≤ a) (tp.map Prod.snd) := hp.sublist hs
    exact (List.pairwise_map).1 hq

/-- C6 witness: the amended theorem applied to a concrete sorted response. -/
theorem C6_top_pages_witness :
    ([(("a" : String), (5 : ℤ)), ("b", 1)].length ≤ 5) ∧
    List.Pairwise (fun a b => b.2 ≤ a.2) [(("a" : String), (5 : ℤ)), ("b", 1)] := by
  have h := C6_top_pages_amended [[.str "a", .num 5], [.str "b", .num 1]] 6
    [("a", 5), ("b", 1)] (by rfl)
  refine ⟨h.1, h.2 ?_ ?_⟩
  · intro r hr
    have hr' : r = [Cell.str "a", Cell.num 5] ∨ r = [Cell.str "b", Cell.num 1] := by
      simpa using hr
    rcases hr' with h' | h'
    · exact ⟨5, by rw [h']; decide⟩
    · exact ⟨1, by rw [h']; decide⟩
  · decide

/-- C8.  For every query POST whose status is at least 400, `_query` raises a
`PostHogAPIError`: for a non-429 status the message carries the status code
and the response body truncated to at most 200 characters; a 429 is raised as
the distinguished rate-limit failure `"Rate limited"`. -/
theorem C8_query_error_policy (status : ℕ) (bodyText : List Char) (body : Json)
    (h : 400 ≤ status) :
    (status = 429 → handleQueryResponse status bodyText body = .error ("Rate limited".toList)) ∧
    (status ≠ 429 →
      handleQueryResponse status bodyText body =
        .error ("API error ".toList ++ (toString status).toList ++ ": ".toList
          ++ bodyText.take 200) ∧
      (bodyText.take 200).length ≤ 200) := by
  constructor
  · intro h429
    simp [handleQueryResponse, h429]
  · intro h429
    refine ⟨by simp [handleQueryResponse, h429, h], ?_⟩
    rw [List.length_take]
    exact min_le_left _ _

/-- C8 witness: a 500 response produces the truncated-body API error, a 429
the rate-limit error. -/
theorem C8_query_error_policy_witness :
    handleQueryResponse 500 ("serverboom".toList) .null =
      .error ("API error ".toList ++ (toString 500).toList ++ ": ".toList
        ++ ("serverboom".toList).take 200) ∧
    handleQueryResponse 429 ("x".toList) .null = .error ("Rate limited".toList) := by
  have h1 := C8_query_error_policy 500 ("serverboom".toList) .null (by norm_num)
  have h2 := C8_query_error_policy 429 ("x".toList) .null (by norm_num)
  exact ⟨(h1.2 (by norm_num)).1, h2.1 rfl⟩

/-- C9.  For every `date_from` and every `date_to` other than `"now"`, the
previous-period pageview query is built with the hardcoded filter covering
now-8-days to now-7-days — independent of both arguments — while the
current-period query (`date_to = "now"`) uses the trailing 1-day filter. -/
theorem C9_pageview_prev_window (dateFrom dateTo : String) (h : dateTo ≠ "now") :
    pageviewTimeFilter dateFrom dateTo
      = "timestamp >= now() - INTERVAL 8 DAY AND timestamp < now() - INTERVAL 7 DAY" ∧
    (∀ dateFrom2 dateTo2, dateTo2 ≠ "now" →
      pageviewTimeFilter dateFrom dateTo = pageviewTimeFilter dateFrom2 dateTo2) ∧
    pageviewTimeFilter dateFrom "now" = "timestamp >= now() - INTERVAL 1 DAY" ∧
    pageviewQuerySql dateFrom dateTo = pageviewQuerySql "-8d" "-7d" := by
  refine ⟨by simp [pageviewTimeFilter, h], ?_, by simp [pageviewTimeFilter], ?_⟩
  · intro dateFrom2 dateTo2 h2
    simp [pageviewTimeFilter, h, h2]
  · simp [pageviewQuerySql, pageviewTimeFilter, h]

/-- C9 witness: the fixed window at the actual previous-period call site
arguments `("-8d", "-7d")`, and at a different offset pair. -/
theorem C9_pageview_prev_window_witness :
    pageviewTimeFilter "-8d" "-7d"
      = "timestamp >= now() - INTERVAL 8 DAY AND timestamp < now() - INTERVAL 7 DAY" ∧
    pageviewTimeFilter "-8d" "-7d" = pageviewTimeFilter "-30d" "-14d" := by
  have h := C9_pageview_prev_window "-8d" "-7d" (by decide)
  exact ⟨h.1, h.2.1 "-30d" "-14d" (by decide)⟩

theorem collectMetrics_results (projects : List PostHogProject)
    (fetch : PostHogProject → Except String ProjectMetrics) :
    (collectMetrics projects fetch).1 =
      projects.filterMap
        (fun q => match fetch q with | .ok m => some (q, m) | .error _ => none) := by
  induction projects with
  | nil => rfl
  | cons p rest ih =>
    cases hf : fetch p <;> simp [collectMetrics, hf, ih, List.filterMap_cons]

theorem collectMetrics_errors (projects : List PostHogProject)
    (fetch : PostHogProject → Except String ProjectMetrics) :
    (collectMetrics projects fetch).2 =
      projects.filterMap
        (fun q => match fetch q with | .ok _ => none | .error e => some (q, e)) := by
  induction projects with
  | nil => rfl
  | cons p rest ih =>
    cases hf : fetch p <;> simp [collectMetrics, hf, ih, List.filterMap_cons]

theorem collectMetrics_errors_count (projects : List PostHogProject)
    (fetch : PostHogProject → Except String ProjectMetrics)
    (p : PostHogProject) (msg : String) (hfail : fetch p = .error msg) :
    (collectMetrics projects fetch).2.count (p, msg) = projects.count p := by
  induction projects with
  | nil => rfl
  | cons q rest ih =>
    by_cases hq : q = p
    · subst hq
      simp [collectMetrics, hfail, List.count_cons, ih]
    · cases hf : fetch q with
      | ok m =>
        simp [collectMetrics, hf, List.count_cons, ih, hq]
      | error e =>
        have hne : ¬ ((p, msg) = (q, e)) := by
          intro hcontra
          exact hq (congrArg Prod.fst hcontra).symm
        simp [collectMetrics, hf, List.count_cons, ih, hne, hq]

/-- C3.  A project whose metrics fetch raises (after gateway retries) appears
exactly once in the failure list, paired with its error message; it appears
in no entry of the success list; and the success list is exactly the
fetch-successes of the whole project list in order — so the failure neither
removes nor reorders any other project's success, and collection proceeds for
every remaining project. -/
theorem C3_per_project_failure_isolation
    (projects : List PostHogProject) (fetch : PostHogProject → Except String ProjectMetrics)
    (p : PostHogProject) (msg : String)
    (honce : projects.count p = 1) (hfail : fetch p = .error msg) :
    (collectMetrics projects fetch).2.count (p, msg) = 1 ∧
    (∀ m, (p, m) ∉ (collectMetrics projects fetch).1) ∧
    (collectMetrics projects fetch).1 =
      projects.filterMap
        (fun q => match fetch q with | .ok m => some (q, m) | .error _ => none) ∧
    (collectMetrics projects fetch).2 =
      projects.filterMap
        (fun q => match fetch q with | .ok _ => none | .error e => some (q, e)) := by
  refine ⟨?_, ?_, collectMetrics_results projects fetch, collectMetrics_errors projects fetch⟩
  · rw [collectMetrics_errors_count projects fetch p msg hfail, honce]
  · intro m hm
    rw [collectMetrics_results projects fetch] at hm
    obtain ⟨q, hq, heq⟩ := List.mem_filterMap.1 hm
    cases hfq : fetch q with
    | ok m' =>
      rw [hfq] at heq
      simp only [Option.some.injEq, Prod.mk.injEq] at heq
      obtain ⟨hqp, _⟩ := heq
      rw [hqp, hfail] at hfq
      cases hfq
    | error e =>
      rw [hfq] at heq
      cases heq

/-- C3 witness: of three projects, the middle one fails; it lands exactly
once in the error list, never in the successes, and both other projects'
successes are collected in order. -/
theorem C3_per_project_failure_isolation_witness :
    ((collectMetrics [wproj1, wproj2, wproj3] wfetch).2.count
      (wproj2, "API error 500: down") = 1) ∧
    (∀ m, (wproj2, m) ∉ (collectMetrics [wproj1, wproj2, wproj3] wfetch).1) ∧
    (collectMetrics [wproj1, wproj2, wproj3] wfetch).1
      = [(wproj1, wmetrics), (wproj3, wmetrics)] := by
  have h := C3_per_project_failure_isolation [wproj1, wproj2, wproj3] wfetch wproj2
    "API error 500: down" (by decide) (by rfl)
  exact ⟨h.1, h.2.1, (h.2.2.1).trans (by rfl)⟩

/-- C2 counterexample.  When all three attempts fail with network errors,
tenacity (with `reraise` left at its default `False`) raises a `RetryError`
wrapping the last attempt's exception — not the bare network error the claim
says is surfaced: `main.py`'s `str(e)` then shows `RetryError[...]` instead
of the connection error's message. -/
theorem C2_retry_counterexample :
    tenacityRun allNetAttempts = (.retryExhausted (.net "connection reset"), [2, 4], 3) ∧
    (RunOutcome.retryExhausted (.net "connection reset")
      ≠ RunOutcome.raised (.net "connection reset")) := by
  refine ⟨rfl, ?_⟩
  intro h
  cases h

/-- C2 (amended).  Every `_query` call runs at most 3 attempts; only
network-level `aiohttp.ClientError`s are retried while a `PostHogAPIError`
raised from a 4xx/5xx response propagates immediately from whichever attempt
it occurs on; the waits before retries follow
`wait_exponential(multiplier=1, min=2, max=10)` — 2s then 4s, always within
[2, 10]; and when all 3 attempts fail with network errors the call raises a
retry-exhaustion error (`RetryError`) wrapping the last network error, rather
than surfacing the bare network error itself. -/
theorem C2_retry_policy (attempt : ℕ → Except QErr Json) :
    (tenacityRun attempt).2.2 ≤ 3 ∧
    ((tenacityRun attempt).2.1 =
      (List.range ((tenacityRun attempt).2.2 - 1)).map (fun k => backoffWait (k + 1))) ∧
    (∀ w ∈ (tenacityRun attempt).2.1, 2 ≤ w ∧ w ≤ 10) ∧
    backoffWait 1 = 2 ∧ backoffWait 2 = 4 ∧
    (∀ v, attempt 1 = .ok v → tenacityRun attempt = (.ok v, [], 1)) ∧
    (∀ e, attempt 1 = .error (.api e) → tenacityRun attempt = (.raised (.api e), [], 1)) ∧
    (∀ e1 v, attempt 1 = .error (.net e1) → attempt 2 = .ok v →
      tenacityRun attempt = (.ok v, [2], 2)) ∧
    (∀ e1 e, attempt 1 = .error (.net e1) → attempt 2 = .error (.api e) →
      tenacityRun attempt = (.raised (.api e), [2], 2)) ∧
    (∀ e1 e2 v, attempt 1 = .error (.net e1) → attempt 2 = .error (.net e2) →
      attempt 3 = .ok v → tenacityRun attempt = (.ok v, [2, 4], 3)) ∧
    (∀ e1 e2 e, attempt 1 = .error (.net e1) → attempt 2 = .error (.net e2) →
      attempt 3 = .error (.api e) → tenacityRun attempt = (.raised (.api e), [2, 4], 3)) ∧
    (∀ e1 e2 e3, attempt 1 = .error (.net e1) → attempt 2 = .error (.net e2) →
      attempt 3 = .error (.net e3) →
      tenacityRun attempt = (.retryExhausted (.net e3), [2, 4], 3)) := by
  have hbase : (tenacityRun attempt).2.2 ≤ 3 ∧
      ((tenacityRun attempt).2.1 =
        (List.range ((tenacityRun attempt).2.2 - 1)).map (fun k => backoffWait (k + 1))) ∧
      (∀ w ∈ (tenacityRun attempt).2.1, 2 ≤ w ∧ w ≤ 10) := by
    rcases h1 : attempt 1 with e1 | v1
    case error =>
      rcases e1 with m1 | m1
      case api => simp only [tenacityRun, h1]; decide
      case net =>
        rcases h2 : attempt 2 with e2 | v2
        case error =>
          rcases e2 with m2 | m2
          case api => simp only [tenacityRun, h1, h2]; decide
          case net =>
            rcases h3 : attempt 3 with e3 | v3
            case error =>
              rcases e3 with m3 | m3
              case api => simp only [tenacityRun, h1, h2, h3]; decide
              case net => simp only [tenacityRun, h1, h2, h3]; decide
            case ok => simp only [tenacityRun, h1, h2, h3]; decide
        case ok => simp only [tenacityRun, h1, h2]; decide
    case ok => simp only [tenacityRun, h1]; decide
  refine ⟨hbase.1, hbase.2.1, hbase.2.2, rfl, rfl, ?_, ?_, ?_, ?_, ?_, ?_, ?_⟩
  · intro v h1
    simp [tenacityRun, h1]
  · intro e h1
    simp [tenacityRun, h1]
  · intro e1 v h1 h2
    simp [tenacityRun, h1, h2]
    rfl
  · intro e1 e h1 h2
    simp [tenacityRun, h1, h2]
    rfl
  · intro e1 e2 v h1 h2 h3
    simp [tenacityRun, h1, h2, h3]
    decide
  · intro e1 e2 e h1 h2 h3
    simp [tenacityRun, h1, h2, h3]
    decide
  · intro e1 e2 e3 h1 h2 h3
    simp [tenacityRun, h1, h2, h3]
    decide

/-- C2 witness: a transient connection failure on the first attempt is
retried after the 2-second backoff and the second attempt's value is
returned. -/
theorem C2_retry_policy_witness :
    tenacityRun netThenOkAttempts = (.ok (.num 7), [2], 2) :=
  (C2_retry_policy netThenOkAttempts).2.2.2.2.2.2.2.1 "timeout" (.num 7) rfl rfl

theorem dropWhile_of_all_false (p : Char → Bool) :
    ∀ l : List Char, (∀ c ∈ l, p c = false) → l.dropWhile p = l := by
  intro l h
  cases l with
  | nil => rfl
  | cons a rest => simp [List.dropWhile_cons, h a (List.mem_cons_self a rest)]

theorem rstrip_of_no_space (s : List Char) (h : ∀ c ∈ s, pyIsSpace c = false) :
    rstrip s = s := by
  unfold rstrip
  rw [dropWhile_of_all_false pyIsSpace s.reverse (fun c hc => h c (List.mem_reverse.1 hc)),
    List.reverse_reverse]

theorem rstrip_length_le (s : List Char) : (rstrip s).length ≤ s.length := by
  unfold rstrip
  simpa using (List.dropWhile_sublist (l := s.reverse) pyIsSpace).length_le

theorem rstrip_append_space (s : List Char) (c : Char) (hc : pyIsSpace c = true) :
    rstrip (s ++ [c]) = rstrip s := by
  unfold rstrip
  rw [List.reverse_append]
  simp [List.dropWhile_cons, hc]

theorem rstrip_decomp (s : List Char) :
    ∃ ws, s = rstrip s ++ ws ∧ ∀ c ∈ ws, pyIsSpace c = true := by
  refine ⟨(s.reverse.takeWhile pyIsSpace).reverse, ?_, ?_⟩
  · conv_lhs => rw [← s.reverse_reverse,
      ← List.takeWhile_append_dropWhile (p := pyIsSpace) (l := s.reverse)]
    rw [List.reverse_append]
    rfl
  · intro c hcmem
    exact List.mem_takeWhile_imp (List.mem_reverse.1 hcmem)

theorem glue_append (a b : List (List Char)) : glue (a ++ b) = glue a ++ glue b := by
  induction a with
  | nil => rfl
  | cons l rest ih => simp [glue, ih]

theorem glue_isEmpty_eq (seg : List (List Char)) : (glue seg).isEmpty = seg.isEmpty := by
  cases seg with
  | nil => rfl
  | cons l rest => simp [glue]

theorem joinNl_cons (l : List Char) (ls : List (List Char)) (h : ls ≠ []) :
    joinNl (l :: ls) = l ++ '\n' :: joinNl ls := by
  cases ls with
  | nil => exact absurd rfl h
  | cons l2 r2 => rfl

theorem glue_eq_joinNl (seg : List (List Char)) (h : seg ≠ []) :
    glue seg = joinNl seg ++ ['\n'] := by
  induction seg with
  | nil => exact absurd rfl h
  | cons l rest ih =>
    cases rest with
    | nil => simp [glue, joinNl]
    | cons l2 r2 =>
      rw [joinNl_cons l (l2 :: r2) (by simp)]
      show l ++ '\n' :: glue (l2 :: r2) = (l ++ '\n' :: joinNl (l2 :: r2)) ++ ['\n']
      rw [ih (by simp)]
      simp

theorem splitOnNl_ne_nil (m : List Char) : splitOnNl m ≠ [] := by
  cases m with
  | nil => simp [splitOnNl]
  | cons c rest =>
    by_cases hc : c = '\n'
    · simp [splitOnNl, hc]
    · simp only [splitOnNl, if_neg hc]
      cases splitOnNl rest <;> simp

theorem splitOnNl_no_newline : ∀ m : List Char, '\n' ∉ m → splitOnNl m = [m] := by
  intro m
  induction m with
  | nil => intro _; rfl
  | cons c rest ih =>
    intro h
    have hc : ¬ c = '\n' := fun hcc => h (hcc ▸ List.mem_cons_self c rest)
    have hrest : '\n' ∉ rest := fun hr => h (List.mem_cons_of_mem c hr)
    simp only [splitOnNl, if_neg hc, ih hrest]

theorem joinNl_splitOnNl (m : List Char) : joinNl (splitOnNl m) = m := by
  induction m with
  | nil => rfl
  | cons c rest ih =>
    by_cases hc : c = '\n'
    · subst hc
      have hstep : splitOnNl ('\n' :: rest) = [] :: splitOnNl rest := by
        simp [splitOnNl]
      rw [hstep, joinNl_cons [] (splitOnNl rest) (splitOnNl_ne_nil rest), ih]
      rfl
    · cases hs : splitOnNl rest with
      | nil => exact absurd hs (splitOnNl_ne_nil rest)
      | cons l ls =>
        have hstep : splitOnNl (c :: rest) = (c :: l) :: ls := by
          simp only [splitOnNl, if_neg hc, hs]
        rw [hstep]
        rw [hs] at ih
        cases ls with
        | nil =>
          simp only [joinNl] at ih ⊢
          rw [ih]
        | cons l2 r2 =>
          rw [joinNl_cons (c :: l) (l2 :: r2) (by simp)]
          rw [joinNl_cons l (l2 :: r2) (by simp)] at ih
          rw [← ih]
          simp

theorem forall₂_map_self {α β : Type _} (R : β → α → Prop) (f : α → β) :
    ∀ l : List α, (∀ s ∈ l, R (f s) s) → List.Forall₂ R (l.map f) l := by
  intro l
  induction l with
  | nil => intro _; simp
  | cons a rest ih =>
    intro h
    simp only [List.map_cons]
    exact List.Forall₂.cons (h a (List.mem_cons_self a rest))
      (ih (fun s hs => h s (List.mem_cons_of_mem a hs)))

theorem splitLoop_spec (N : ℕ) :
    ∀ (lines seg chunks : List (List Char)),
      (∀ l ∈ lines, l.length + 1 ≤ N) →
      (glue seg).length ≤ N →
      ∃ segs : List (List (List Char)),
        segs.flatten = seg ++ lines ∧
        (∀ s ∈ segs, s ≠ []) ∧
        splitLoop N lines (glue seg) chunks = chunks ++ segs.map (fun s => rstrip (glue s)) ∧
        (∀ s ∈ segs, (rstrip (glue s)).length ≤ N) := by
  intro lines
  induction lines with
  | nil =>
    intro seg chunks _ hcc
    by_cases hseg : seg = []
    · subst hseg
      exact ⟨[], by simp, by simp, by simp [splitLoop, glue], by simp⟩
    · refine ⟨[seg], by simp, by simpa using hseg, ?_, ?_⟩
      · have hne : (glue seg).isEmpty = false := by
          rw [glue_isEmpty_eq]
          simpa using hseg
        simp [splitLoop, hne]
      · intro s hs
        have hss : s = seg := by simpa using hs
        subst hss
        exact le_trans (rstrip_length_le _) hcc
  | cons line rest ih =>
    intro seg chunks hlines hcc
    have hline : line.length + 1 ≤ N := hlines line (List.mem_cons_self line rest)
    have hrest : ∀ l ∈ rest, l.length + 1 ≤ N :=
      fun l hl => hlines l (List.mem_cons_of_mem line hl)
    by_cases hover : N < (glue seg).length + line.length + 1
    · have hsingle : (glue [line]).length ≤ N := by
        simp only [glue, List.append_nil]
        simpa using hline
      by_cases hseg : seg = []
      · subst hseg
        obtain ⟨segs, hjoin, hne, heq, hlen⟩ := ih [line] chunks hrest hsingle
        refine ⟨segs, by simpa using hjoin, hne, ?_, hlen⟩
        have hstep : splitLoop N (line :: rest) (glue []) chunks
            = splitLoop N rest (glue [line]) chunks := by
          simp [splitLoop, glue, hover]
        rw [hstep, heq]
      · obtain ⟨segs, hjoin, hne, heq, hlen⟩ :=
          ih [line] (chunks ++ [rstrip (glue seg)]) hrest hsingle
        refine ⟨seg :: segs, ?_, ?_, ?_, ?_⟩
        · simp [hjoin]
        · intro s hs
          rcases List.mem_cons.1 hs with h' | h'
          · subst h'
            exact hseg
          · exact hne s h'
        · have hnonempty : (glue seg).isEmpty = false := by
            rw [glue_isEmpty_eq]
            simpa using hseg
          simp only [splitLoop, if_pos hover, hnonempty]
          have harg : line ++ ['\n'] = glue [line] := by simp [glue]
          rw [if_neg (by simp)]
          rw [harg, heq]
          simp
        · intro s hs
          rcases List.mem_cons.1 hs with h' | h'
          · subst h'
            exact le_trans (rstrip_length_le _) hcc
          · exact hlen s h'
    · have hcc' : (glue (seg ++ [line])).length ≤ N := by
        rw [glue_append]
        have h1 : (glue [line]).length = line.length + 1 := by simp [glue]
        rw [List.length_append, h1]
        omega
      obtain ⟨segs, hjoin, hne, heq, hlen⟩ := ih (seg ++ [line]) chunks hrest hcc'
      refine ⟨segs, by simp [hjoin], hne, ?_, hlen⟩
      simp only [splitLoop, if_neg hover]
      have harg : glue seg ++ line ++ ['\n'] = glue (seg ++ [line]) := by
        rw [glue_append]
        simp [glue]
      rw [harg, heq]

/-- C5 counterexample.  The claim bounds every chunk by 1900 characters for
every message, but a single line longer than the limit is emitted whole: a
1901-character line (no newlines) comes back as one 1901-character chunk. -/
theorem C5_split_message_counterexample :
    splitMessage (List.replicate 1901 'a') 1900 = [List.replicate 1901 'a'] ∧
    (List.replicate 1901 'a').length = 1901 := by
  have hnospace : ∀ c ∈ List.replicate 1901 'a', pyIsSpace c = false := by
    intro c hc
    rw [List.eq_of_mem_replicate hc]
    rfl
  have hnonl : '\n' ∉ List.replicate 1901 'a' := by
    intro h
    have h2 := List.eq_of_mem_replicate h
    cases h2
  have hsplit : splitOnNl (List.replicate 1901 'a') = [List.replicate 1901 'a'] :=
    splitOnNl_no_newline _ hnonl
  have hlen : (List.replicate 1901 'a').length = 1901 := List.length_replicate 1901 'a'
  have hlong : ¬ ((List.replicate 1901 'a').length ≤ 1900) := by
    rw [hlen]
    omega
  refine ⟨?_, hlen⟩
  rw [splitMessage, if_neg hlong, hsplit]
  have hcond : 1900 < ([] : List Char).length + (List.replicate 1901 'a').length + 1 := by
    rw [hlen]
    norm_num
  have hstep1 : splitLoop 1900 [List.replicate 1901 'a'] [] []
      = splitLoop 1900 [] (List.replicate 1901 'a' ++ ['\n']) [] := by
    conv_lhs => rw [splitLoop]
    rw [if_pos hcond]
    rfl
  rw [hstep1]
  have hne2 : (List.replicate 1901 'a' ++ ['\n'] : List Char).isEmpty = false := by
    rfl
  have hstep2 : splitLoop 1900 ([] : List (List Char))
      (List.replicate 1901 'a' ++ ['\n']) []
      = [rstrip (List.replicate 1901 'a' ++ ['\n'])] := by
    conv_lhs => rw [splitLoop]
    rw [if_neg (fun hcontra => Bool.false_ne_true (hne2.symm.trans hcontra))]
    rfl
  rw [hstep2, rstrip_append_space _ '\n' (by rfl), rstrip_of_no_space _ hnospace]

/-- C5 (amended).  Provided every line of the message fits the limit
(`len(line) + 1 ≤ 1900`), `_split_message` with limit 1900 returns chunks of
length at most 1900 whose boundaries fall on line breaks of the original
message: the lines split on `"\n"` partition, in order, into one non-empty
group per chunk (`Forall₂` below), each chunk is its group joined with
newlines minus trailing whitespace trimmed from the chunk, and joining all
the lines with newlines reproduces the original message.  Without the
line-length proviso the 1900 bound fails (see the counterexample). -/
theorem C5_split_message_amended (message : List Char)
    (hlines : ∀ line ∈ splitOnNl message, line.length + 1 ≤ 1900) :
    (∀ chunk ∈ splitMessage message 1900, chunk.length ≤ 1900) ∧
    joinNl (splitOnNl message) = message ∧
    ∃ segs : List (List (List Char)),
      segs.flatten = splitOnNl message ∧
      (∀ seg ∈ segs, seg ≠ []) ∧
      List.Forall₂
        (fun chunk seg => ∃ ws, joinNl seg = chunk ++ ws ∧ ∀ c ∈ ws, pyIsSpace c = true)
        (splitMessage message 1900) segs := by
  by_cases hshort : message.length ≤ 1900
  · have hsm : splitMessage message 1900 = [message] := by
      simp [splitMessage, hshort]
    refine ⟨?_, joinNl_splitOnNl message, [splitOnNl message], by simp, ?_, ?_⟩
    · intro chunk hc
      rw [hsm] at hc
      have : chunk = message := by simpa using hc
      rw [this]
      exact hshort
    · intro seg hs
      have : seg = splitOnNl message := by simpa using hs
      rw [this]
      exact splitOnNl_ne_nil message
    · rw [hsm]
      refine List.Forall₂.cons ⟨[], ?_, by simp⟩ List.Forall₂.nil
      rw [joinNl_splitOnNl message, List.append_nil]
  · have h0 : (glue ([] : List (List Char))).length ≤ 1900 := by
      simp [glue]
    obtain ⟨segs, hjoin, hne, heq, hlen⟩ :=
      splitLoop_spec 1900 (splitOnNl message) [] [] hlines h0
    have hsm : splitMessage message 1900 = segs.map (fun s => rstrip (glue s)) := by
      simp only [splitMessage, if_neg hshort]
      simpa using heq
    refine ⟨?_, joinNl_splitOnNl message, segs, by simpa using hjoin, hne, ?_⟩
    · intro chunk hc
      rw [hsm] at hc
      obtain ⟨s, hs, hrfl⟩ := List.mem_map.1 hc
      rw [← hrfl]
      exact hlen s hs
    · rw [hsm]
      apply forall₂_map_self
      intro s hs
      have hsne := hne s hs
      have hg : rstrip (glue s) = rstrip (joinNl s) := by
        rw [glue_eq_joinNl s hsne]
        exact rstrip_append_space _ '\n' (by rfl)
      rw [hg]
      obtain ⟨ws, hws, hwsp⟩ := rstrip_decomp (joinNl s)
      exact ⟨ws, hws, hwsp⟩

/-- C5 witness: the amended theorem at the concrete message `"ab\ncd"`. -/
theorem C5_split_message_witness :
    (∀ chunk ∈ splitMessage ('a' :: 'b' :: '\n' :: 'c' :: 'd' :: []) 1900,
      chunk.length ≤ 1900) ∧
    joinNl (splitOnNl ('a' :: 'b' :: '\n' :: 'c' :: 'd' :: []))
      = ('a' :: 'b' :: '\n' :: 'c' :: 'd' :: []) ∧
    ∃ segs : List (List (List Char)),
      segs.flatten = splitOnNl ('a' :: 'b' :: '\n' :: 'c' :: 'd' :: []) ∧
      (∀ seg ∈ segs, seg ≠ []) ∧
      List.Forall₂
        (fun chunk seg => ∃ ws, joinNl seg = chunk ++ ws ∧ ∀ c ∈ ws, pyIsSpace c = true)
        (splitMessage ('a' :: 'b' :: '\n' :: 'c' :: 'd' :: []) 1900) segs :=
  C5_split_message_amended ('a' :: 'b' :: '\n' :: 'c' :: 'd' :: []) (by decide)
